import Mathlib

/-!
Verification of the persistence layer and chat request flow of the
gideon-gui-mcp application (src/lib/db/queries.ts and
src/app/(chat)/api/chat/route.ts), shallowly embedded in Lean.

The relational state is a `DB` of lists of rows; drizzle query-builder
calls are embedded by their SQL semantics: `select().where(p)` is
`List.filter`, `.limit(1)` plus destructuring of the first element is
`List.find?`, `orderBy(desc(createdAt)).limit(n)` is an insertion sort by
`createdAt` descending followed by `List.take n`, `delete().where(p)`
keeps the rows not matching `p`, and `update().set(s).where(p)` maps `s`
over the rows matching `p`.  Thrown JS `Error`s become `Except QErr`.
Timestamps (`Date`) are `Nat`; JSON columns (`parts`, `attachments`) are
opaque `String`s.
-/

namespace Gideon

/-- Row of the `Chat` table (src/lib/db schema; spec section 3). -/
structure Chat where
  id : String
  userId : String
  title : String
  createdAt : Nat
  visibility : String
deriving DecidableEq, Repr

/-- Row of the `Message` table (type `DBMessage` in the source). -/
structure DBMessage where
  id : String
  chatId : String
  role : String
  parts : String
  attachments : String
  createdAt : Nat
deriving DecidableEq, Repr

/-- Row of the `Vote` table. -/
structure Vote where
  chatId : String
  messageId : String
  isUpvoted : Bool
deriving DecidableEq, Repr

/-- Row of the `Document` table (revisions share `id`, differ in `createdAt`). -/
structure Document where
  id : String
  userId : String
  title : String
  kind : String
  content : String
  createdAt : Nat
deriving DecidableEq, Repr

/-- Row of the `Suggestion` table. -/
structure Suggestion where
  id : String
  documentId : String
  documentCreatedAt : Nat
  originalText : String
  suggestedText : String
  description : String
  isResolved : Bool
  userId : String
  createdAt : Nat
deriving DecidableEq, Repr

/-- The relational database state: one list of rows per table. -/
structure DB where
  chats : List Chat
  messages : List DBMessage
  votes : List Vote
  documents : List Document
  suggestions : List Suggestion
deriving DecidableEq, Repr

/-- Errors thrown by the query layer (`throw new Error(...)` in queries.ts):
`chatNotFound id` embeds ``Chat not found: ${chatId}``, `unauthorized` embeds
`Unauthorized: User does not own this chat`, and `cursorNotFound id` embeds
``Chat with id ${id} not found`` from the pagination cursor lookup. -/
inductive QErr where
  | chatNotFound (id : String)
  | unauthorized
  | cursorNotFound (id : String)
deriving DecidableEq, Repr

/-- The `'up' | 'down'` vote type of `voteMessage`. -/
inductive VoteType where
  | up
  | down
deriving DecidableEq, Repr

/-- Embedding of `getChatById({id, userId})` (queries.ts lines 193-205): select from
`chat` where `chat.id = id AND chat.userId = userId`, limit 1; returns the
row or `undefined`. -/
def getChatById (db : DB) (id userId : String) : Option Chat :=
  db.chats.find? (fun c => c.id == id && c.userId == userId)

/-- Embedding of `deleteChatById({id})` (queries.ts lines 113-123): delete votes with
`vote.chatId = id`, then messages with `message.chatId = id`, then the chat
row itself.  Note: the function takes no `userId`. -/
def deleteChatById (db : DB) (id : String) : DB :=
  { db with
    votes := db.votes.filter (fun v => !(v.chatId == id))
    messages := db.messages.filter (fun m => !(m.chatId == id))
    chats := db.chats.filter (fun c => !(c.id == id)) }

/-- C1: for a stored chat (ids unique, as enforced by the primary key), any
requester other than the stored owner gets `none` from `getChatById`, the
owner gets the record, an id with no row at all also yields `none` (so
absence and ownership mismatch are the same observable), and any returned
record is owned by the requesting user. -/
theorem getChatById_owner_only (db : DB) (c : Chat) (u : String)
    (hmem : c ∈ db.chats)
    (huniq : ∀ c2, c2 ∈ db.chats → c2.id = c.id → c2 = c) :
    (u ≠ c.userId → getChatById db c.id u = none) ∧
    getChatById db c.id c.userId = some c ∧
    (∀ i u2, (∀ c2, c2 ∈ db.chats → c2.id ≠ i) → getChatById db i u2 = none) ∧
    (∀ i u2 c2, getChatById db i u2 = some c2 → c2.userId = u2) := by
  refine ⟨?_, ?_, ?_, ?_⟩
  · intro hne
    rw [getChatById, List.find?_eq_none]
    intro x hx hpred
    simp only [Bool.and_eq_true, beq_iff_eq] at hpred
    exact hne ((huniq x hx hpred.1 ▸ hpred.2).symm)
  · have hex : (db.chats.find? (fun c2 => c2.id == c.id && c2.userId == c.userId)).isSome := by
      rw [List.find?_isSome]
      exact ⟨c, hmem, by simp⟩
    obtain ⟨y, hy⟩ := Option.isSome_iff_exists.mp hex
    have hymem := List.mem_of_find?_eq_some hy
    have hypred := List.find?_some hy
    simp only [Bool.and_eq_true, beq_iff_eq] at hypred
    rw [getChatById, hy, huniq y hymem hypred.1]
  · intro i u2 hno
    rw [getChatById, List.find?_eq_none]
    intro x hx hpred
    simp only [Bool.and_eq_true, beq_iff_eq] at hpred
    exact hno x hx hpred.1
  · intro i u2 c2 h
    have hpred := List.find?_some h
    simp only [Bool.and_eq_true, beq_iff_eq] at hpred
    exact hpred.2

/-- Concrete database state used by several witnesses: two chats owned by
two distinct users, a vote and two messages on the first chat. -/
def dbW : DB :=
  { chats := [⟨"c1", "alice", "t1", 10, "private"⟩, ⟨"c2", "bob", "t2", 20, "private"⟩]
    messages := [⟨"m1", "c1", "user", "p1", "", 5⟩, ⟨"m2", "c1", "assistant", "p2", "", 6⟩]
    votes := [⟨"c1", "m1", true⟩]
    documents := []
    suggestions := [] }

theorem getChatById_owner_only_witness :
    (getChatById dbW "c1" "bob" = none ∧ getChatById dbW "c1" "alice" =
      some ⟨"c1", "alice", "t1", 10, "private"⟩) := by
  have h := getChatById_owner_only dbW ⟨"c1", "alice", "t1", 10, "private"⟩ "bob"
    (by decide) (by decide)
  exact ⟨h.1 (by decide), h.2.1⟩

/-- Insertion step for `orderBy(desc(chat.createdAt))`: larger timestamps
come first. -/
def insertByCreatedAtDesc (c : Chat) : List Chat → List Chat
  | [] => [c]
  | d :: ds =>
    if d.createdAt ≤ c.createdAt then c :: d :: ds else d :: insertByCreatedAtDesc c ds

/-- Embedding of `orderBy(desc(chat.createdAt))` as an insertion sort. -/
def sortByCreatedAtDesc : List Chat → List Chat
  | [] => []
  | c :: cs => insertByCreatedAtDesc c (sortByCreatedAtDesc cs)

/-- The inner `query` closure of `getChatsByUserId` (queries.ts lines
139-149): select from `chat` where the cursor condition and
`chat.userId = id`, order by `createdAt` descending, limit `n`. -/
def chatQuery (db : DB) (cond : Chat → Bool) (n : Nat) : List Chat :=
  (sortByCreatedAtDesc (db.chats.filter cond)).take n

/-- Return value of `getChatsByUserId`. -/
structure ChatsPage where
  chats : List Chat
  hasMore : Bool
deriving DecidableEq, Repr

/-- The trim-and-flag epilogue of `getChatsByUserId` (queries.ts lines
181-186): `hasMore = filteredChats.length > limit`; trim to `limit` when it
is set. -/
def pageOf (filteredChats : List Chat) (limit : Nat) : ChatsPage :=
  { chats := if limit < filteredChats.length then filteredChats.take limit else filteredChats
    hasMore := decide (limit < filteredChats.length) }

/-- Embedding of `getChatsByUserId({id, limit, startingAfter, endingBefore})` (queries.ts
lines 125-191).  The cursor row is looked up by `chat.id` alone (no userId
predicate, lines 153-176); a missing cursor row throws
``Chat with id ... not found``.  The page query filters by the owner and the
cursor bound (`gt`/`lt` on `createdAt`), sorted descending, limited to
`limit + 1` rows. -/
def getChatsByUserId (db : DB) (id : String) (limit : Nat)
    (startingAfter endingBefore : Option String) : Except QErr ChatsPage :=
  let extendedLimit := limit + 1
  match startingAfter with
  | some s =>
    match db.chats.find? (fun c => c.id == s) with
    | none => .error (.cursorNotFound s)
    | some sel =>
      .ok (pageOf
        (chatQuery db (fun c => decide (sel.createdAt < c.createdAt) && c.userId == id)
          extendedLimit) limit)
  | none =>
    match endingBefore with
    | some e =>
      match db.chats.find? (fun c => c.id == e) with
      | none => .error (.cursorNotFound e)
      | some sel =>
        .ok (pageOf
          (chatQuery db (fun c => decide (c.createdAt < sel.createdAt) && c.userId == id)
            extendedLimit) limit)
    | none => .ok (pageOf (chatQuery db (fun c => c.userId == id) extendedLimit) limit)

/-- The set of chat rows matching a `getChatsByUserId` request: owned by the
requester and inside the resolved cursor bound. -/
def paginationMatches (db : DB) (id : String)
    (startingAfter endingBefore : Option String) : List Chat :=
  match startingAfter with
  | some s =>
    match db.chats.find? (fun c => c.id == s) with
    | none => []
    | some sel =>
      db.chats.filter (fun c => decide (sel.createdAt < c.createdAt) && c.userId == id)
  | none =>
    match endingBefore with
    | some e =>
      match db.chats.find? (fun c => c.id == e) with
      | none => []
      | some sel =>
        db.chats.filter (fun c => decide (c.createdAt < sel.createdAt) && c.userId == id)
    | none => db.chats.filter (fun c => c.userId == id)

theorem length_insertByCreatedAtDesc (c : Chat) (l : List Chat) :
    (insertByCreatedAtDesc c l).length = l.length + 1 := by
  induction l with
  | nil => rfl
  | cons d ds ih =>
    rw [insertByCreatedAtDesc]
    split
    · rfl
    · simp [List.length_cons, ih]

theorem length_sortByCreatedAtDesc (l : List Chat) :
    (sortByCreatedAtDesc l).length = l.length := by
  induction l with
  | nil => rfl
  | cons c cs ih => rw [sortByCreatedAtDesc, length_insertByCreatedAtDesc, ih]; rfl

theorem pageOf_extended (l : List Chat) (n : Nat) :
    (pageOf ((sortByCreatedAtDesc l).take (n + 1)) n).chats =
      (sortByCreatedAtDesc l).take n ∧
    ((pageOf ((sortByCreatedAtDesc l).take (n + 1)) n).hasMore = true ↔ n < l.length) := by
  have hlen : ((sortByCreatedAtDesc l).take (n + 1)).length =
      min (n + 1) l.length := by
    rw [List.length_take, length_sortByCreatedAtDesc]
  constructor
  · rw [pageOf]
    split
    · rw [List.take_take]
      simp
    · rename_i hnot
      rw [hlen] at hnot
      push_neg at hnot
      have hle : l.length ≤ n := by omega
      have h1 : (sortByCreatedAtDesc l).length ≤ n + 1 := by
        rw [length_sortByCreatedAtDesc]; omega
      have h2 : (sortByCreatedAtDesc l).length ≤ n := by
        rw [length_sortByCreatedAtDesc]; omega
      rw [List.take_of_length_le h1, List.take_of_length_le h2]
  · rw [pageOf]
    simp only [decide_eq_true_eq, hlen]
    omega

/-- C3: whenever `getChatsByUserId` succeeds, the returned page is the
matching rows sorted by `createdAt` descending trimmed to `limit` (hence at
most `limit` rows, fetched from at most `limit + 1`), and `hasMore` is true
iff there are strictly more than `limit` matching rows in the database. -/
theorem getChatsByUserId_pagination (db : DB) (u : String) (limit : Nat)
    (sa eb : Option String) (r : ChatsPage)
    (h : getChatsByUserId db u limit sa eb = Except.ok r) :
    r.chats = (sortByCreatedAtDesc (paginationMatches db u sa eb)).take limit ∧
    r.chats.length ≤ limit ∧
    (r.hasMore = true ↔ limit < (paginationMatches db u sa eb).length) := by
  have main : r = pageOf
      ((sortByCreatedAtDesc (paginationMatches db u sa eb)).take (limit + 1)) limit := by
    match sa with
    | some s =>
      cases hf : db.chats.find? (fun c => c.id == s) with
      | none => rw [getChatsByUserId] at h; simp [hf] at h
      | some sel =>
        rw [getChatsByUserId] at h
        simp only [hf] at h
        rw [paginationMatches]
        simp only [hf]
        exact (Except.ok.inj h).symm
    | none =>
      match eb with
      | some e =>
        cases hf : db.chats.find? (fun c => c.id == e) with
        | none => rw [getChatsByUserId] at h; simp [hf] at h
        | some sel =>
          rw [getChatsByUserId] at h
          simp only [hf] at h
          rw [paginationMatches]
          simp only [hf]
          exact (Except.ok.inj h).symm
      | none =>
        rw [getChatsByUserId] at h
        rw [paginationMatches]
        exact (Except.ok.inj h).symm
  have hspec := pageOf_extended (paginationMatches db u sa eb) limit
  subst main
  refine ⟨hspec.1, ?_, ?_⟩
  · rw [hspec.1, List.length_take]
    exact Nat.min_le_left _ _
  · exact hspec.2

theorem getChatsByUserId_pagination_witness :
    getChatsByUserId dbW "alice" 0 none none = Except.ok ⟨[], true⟩ ∧
    0 < (paginationMatches dbW "alice" none none).length := by
  have h := getChatsByUserId_pagination dbW "alice" 0 none none ⟨[], true⟩ (by rfl)
  exact ⟨by rfl, h.2.2.mp (by decide)⟩

/-- C10: the pagination cursor of `getChatsByUserId` is resolved by chat id
alone, with no ownership predicate: the cursor-not-found error is raised iff
no chat row with that id exists at all, and whenever some chat row has that
id — whoever owns it — the call succeeds with that row's `createdAt` as the
pagination bound. -/
theorem getChatsByUserId_cursor_unscoped (db : DB) (u : String) (n : Nat)
    (s : String) :
    (getChatsByUserId db u n (some s) none = Except.error (QErr.cursorNotFound s) ↔
      ∀ c, c ∈ db.chats → c.id ≠ s) ∧
    (getChatsByUserId db u n none (some s) = Except.error (QErr.cursorNotFound s) ↔
      ∀ c, c ∈ db.chats → c.id ≠ s) ∧
    (∀ sel, db.chats.find? (fun c => c.id == s) = some sel →
      getChatsByUserId db u n (some s) none =
        Except.ok (pageOf
          (chatQuery db (fun c => decide (sel.createdAt < c.createdAt) && c.userId == u)
            (n + 1)) n) ∧
      getChatsByUserId db u n none (some s) =
        Except.ok (pageOf
          (chatQuery db (fun c => decide (c.createdAt < sel.createdAt) && c.userId == u)
            (n + 1)) n)) := by
  have hnone : db.chats.find? (fun c => c.id == s) = none ↔
      ∀ c, c ∈ db.chats → c.id ≠ s := by
    rw [List.find?_eq_none]
    constructor
    · intro h c hc
      have := h c hc
      simpa using this
    · intro h c hc
      simpa using h c hc
  refine ⟨?_, ?_, ?_⟩
  · cases hf : db.chats.find? (fun c => c.id == s) with
    | none =>
      rw [getChatsByUserId]
      simp only [hf]
      simpa using hnone.mp hf
    | some sel =>
      rw [getChatsByUserId]
      simp only [hf]
      constructor
      · intro h; exact absurd h (by simp)
      · intro h
        exact absurd (hnone.mpr h) (by simp [hf])
  · cases hf : db.chats.find? (fun c => c.id == s) with
    | none =>
      rw [getChatsByUserId]
      simp only [hf]
      simpa using hnone.mp hf
    | some sel =>
      rw [getChatsByUserId]
      simp only [hf]
      constructor
      · intro h; exact absurd h (by simp)
      · intro h
        exact absurd (hnone.mpr h) (by simp [hf])
  · intro sel hf
    constructor
    · rw [getChatsByUserId]; simp only [hf]
    · rw [getChatsByUserId]; simp only [hf]

theorem getChatsByUserId_cursor_unscoped_witness :
    getChatsByUserId dbW "alice" 5 (some "c2") none = Except.ok ⟨[], false⟩ := by
  have h := (getChatsByUserId_cursor_unscoped dbW "alice" 5 "c2").2.2
    ⟨"c2", "bob", "t2", 20, "private"⟩ (by decide)
  rw [h.1]
  rfl

/-- Embedding of `voteMessage({chatId, messageId, type, userId})` (queries.ts lines
233-279): look up the chat via `getChatById(chatId, userId)`; a missing
result throws ``Chat not found: ${chatId}``; a result with a different
owner would throw `Unauthorized` (lines 253-257); then find an existing
vote row keyed by `messageId` alone (line 262) and either update the rows
matching `messageId AND chatId` or insert a fresh row. -/
def voteMessage (db : DB) (chatId messageId : String) (t : VoteType)
    (userId : String) : Except QErr DB :=
  match getChatById db chatId userId with
  | none => .error (.chatNotFound chatId)
  | some chatToVerify =>
    if chatToVerify.userId != userId then
      .error .unauthorized
    else
      match db.votes.find? (fun v => v.messageId == messageId) with
      | some _ =>
        .ok { db with votes := db.votes.map (fun v =>
            if v.messageId == messageId && v.chatId == chatId then
              { v with isUpvoted := t == VoteType.up }
            else v) }
      | none =>
        .ok { db with votes := db.votes ++ [⟨chatId, messageId, t == VoteType.up⟩] }

/-- Embedding of `getVotesByChatId({id})` (queries.ts lines 281-288): select from `vote`
where `vote.chatId = id`.  No user-id predicate appears in the query and the
function takes none. -/
def getVotesByChatId (db : DB) (id : String) : List Vote :=
  db.votes.filter (fun v => v.chatId == id)

theorem getChatById_some_userId {db : DB} {c u : String} {ch : Chat}
    (h : getChatById db c u = some ch) : ch.userId = u := by
  have hpred := List.find?_some h
  simp only [Bool.and_eq_true, beq_iff_eq] at hpred
  exact hpred.2

theorem filter_votes_chat_and_message (l : List Vote) (c m : String)
    (hmsg : ∀ v, v ∈ l → v.messageId = m → v.chatId = c) :
    l.filter (fun v => v.chatId == c && v.messageId == m) =
      l.filter (fun v => v.messageId == m) := by
  apply List.filter_congr
  intro v hv
  cases hpm : (v.messageId == m) with
  | false => simp [hpm]
  | true =>
    have := hmsg v hv (by simpa using hpm)
    simp [hpm, this]

theorem eq_singleton_of_length_le_one {α : Type} (l : List α) (x : α)
    (hlen : l.length ≤ 1) (hx : x ∈ l) : l = [x] := by
  match l with
  | [] => cases hx
  | [y] =>
    simp only [List.mem_singleton] at hx
    rw [hx]
  | y :: z :: rest => simp at hlen

theorem voteMessage_step (db : DB) (c m : String) (t : VoteType) (u : String)
    (ch : Chat)
    (hchat : getChatById db c u = some ch)
    (hmsg : ∀ v, v ∈ db.votes → v.messageId = m → v.chatId = c)
    (huniq : (db.votes.filter (fun v => v.messageId == m)).length ≤ 1) :
    ∃ d, voteMessage db c m t u = Except.ok d ∧
      d.votes.filter (fun v => v.messageId == m) = [⟨c, m, t == VoteType.up⟩] ∧
      (∀ v, v ∈ d.votes → v.messageId = m → v.chatId = c) ∧
      ((db.votes.find? (fun v => v.messageId == m)).isSome →
        d.votes.length = db.votes.length) ∧
      d.chats = db.chats := by
  have hbne : (ch.userId != u) = false := by
    simp [getChatById_some_userId hchat]
  cases hf : db.votes.find? (fun v => v.messageId == m) with
  | none =>
    refine ⟨{ db with votes := db.votes ++ [⟨c, m, t == VoteType.up⟩] },
      ?_, ?_, ?_, ?_, rfl⟩
    · rw [voteMessage]
      simp only [hchat, hbne, Bool.false_eq_true, if_false, hf]
    · have hempty : db.votes.filter (fun v => v.messageId == m) = [] := by
        rw [List.filter_eq_nil_iff]
        intro v hv
        have := List.find?_eq_none.mp hf v hv
        simpa using this
      simp only [List.filter_append, hempty]
      simp
    · intro v hv hvm
      simp only [List.mem_append, List.mem_singleton] at hv
      cases hv with
      | inl h2 => exact hmsg v h2 hvm
      | inr h2 => rw [h2]
    · intro hsome
      simp at hsome
  | some v0 =>
    have hv0mem := List.mem_of_find?_eq_some hf
    have hv0pred : v0.messageId = m := by
      have := List.find?_some hf
      simpa using this
    have hv0chat : v0.chatId = c := hmsg v0 hv0mem hv0pred
    have hsingle : db.votes.filter (fun v => v.messageId == m) = [v0] := by
      apply eq_singleton_of_length_le_one _ _ huniq
      exact List.mem_filter.mpr ⟨hv0mem, by simp [hv0pred]⟩
    have hpres : ∀ v : Vote,
        ((if v.messageId == m && v.chatId == c then
            { v with isUpvoted := t == VoteType.up } else v).messageId == m) =
          (v.messageId == m) := by
      intro v
      split
      · rfl
      · rfl
    refine ⟨{ db with votes := db.votes.map (fun v =>
        if v.messageId == m && v.chatId == c then
          { v with isUpvoted := t == VoteType.up } else v) },
      ?_, ?_, ?_, ?_, rfl⟩
    · rw [voteMessage]
      simp only [hchat, hbne, Bool.false_eq_true, if_false, hf]
    · rw [List.filter_map]
      have : db.votes.filter (fun v =>
          (if v.messageId == m && v.chatId == c then
            { v with isUpvoted := t == VoteType.up } else v).messageId == m) =
          db.votes.filter (fun v => v.messageId == m) := by
        apply List.filter_congr
        intro v _
        exact hpres v
      rw [Function.comp_def]
      rw [this, hsingle]
      obtain ⟨vc, vm, vb⟩ := v0
      simp only [List.map_cons, List.map_nil]
      simp only at hv0pred hv0chat
      rw [hv0pred, hv0chat]
      simp
    · intro v hv hvm
      simp only [List.mem_map] at hv
      obtain ⟨w, hwmem, hweq⟩ := hv
      by_cases hcond : (w.messageId == m && w.chatId == c) = true
      · simp only [hcond, if_true] at hweq
        rw [← hweq]
        simp only [Bool.and_eq_true, beq_iff_eq] at hcond
        exact hcond.2
      · simp only [hcond, if_false] at hweq
        rw [← hweq] at hvm ⊢
        exact hmsg w hwmem hvm
    · intro _
      exact List.length_map _ _
/-- C4: voting is an idempotent upsert per `(chatId, messageId)`.  For a chat
the caller owns (and a database whose vote rows for this message all carry
this chat id, at most one such row, as the one-vote-per-message invariant
states), casting `up` twice leaves exactly one vote row for the pair with
`isUpvoted = true`, and a subsequent `down` overwrites that row in place
rather than adding one. -/
theorem voteMessage_idempotent_upsert (db : DB) (c m u : String) (ch : Chat)
    (hchat : getChatById db c u = some ch)
    (hmsg : ∀ v, v ∈ db.votes → v.messageId = m → v.chatId = c)
    (huniq : (db.votes.filter (fun v => v.messageId == m)).length ≤ 1) :
    ∃ d1 d2 d3,
      voteMessage db c m VoteType.up u = Except.ok d1 ∧
      voteMessage d1 c m VoteType.up u = Except.ok d2 ∧
      d2.votes.filter (fun v => v.chatId == c && v.messageId == m) = [⟨c, m, true⟩] ∧
      d2.votes.length = d1.votes.length ∧
      voteMessage d1 c m VoteType.down u = Except.ok d3 ∧
      d3.votes.filter (fun v => v.chatId == c && v.messageId == m) = [⟨c, m, false⟩] ∧
      d3.votes.length = d1.votes.length := by
  obtain ⟨d1, he1, hf1, hm1, _, hc1⟩ :=
    voteMessage_step db c m VoteType.up u ch hchat hmsg huniq
  have hchat1 : getChatById d1 c u = some ch := by
    rw [getChatById, hc1]
    exact hchat
  have huniq1 : (d1.votes.filter (fun v => v.messageId == m)).length ≤ 1 := by
    rw [hf1]
    simp
  have hsome1 : (d1.votes.find? (fun v => v.messageId == m)).isSome := by
    rw [List.find?_isSome]
    have hx : (⟨c, m, VoteType.up == VoteType.up⟩ : Vote) ∈
        d1.votes.filter (fun v => v.messageId == m) := by
      rw [hf1]
      exact List.mem_singleton.mpr rfl
    obtain ⟨hxmem, hxpred⟩ := List.mem_filter.mp hx
    exact ⟨_, hxmem, hxpred⟩
  obtain ⟨d2, he2, hf2, hm2, hlen2, hc2⟩ :=
    voteMessage_step d1 c m VoteType.up u ch hchat1 hm1 huniq1
  obtain ⟨d3, he3, hf3, hm3, hlen3, hc3⟩ :=
    voteMessage_step d1 c m VoteType.down u ch hchat1 hm1 huniq1
  refine ⟨d1, d2, d3, he1, he2, ?_, hlen2 hsome1, he3, ?_, hlen3 hsome1⟩
  · rw [filter_votes_chat_and_message _ _ _ hm2, hf2]
    rfl
  · rw [filter_votes_chat_and_message _ _ _ hm3, hf3]
    rfl

theorem voteMessage_idempotent_upsert_witness :
    ∃ d1 d2 d3,
      voteMessage dbW "c1" "m1" VoteType.up "alice" = Except.ok d1 ∧
      voteMessage d1 "c1" "m1" VoteType.up "alice" = Except.ok d2 ∧
      d2.votes.filter (fun v => v.chatId == "c1" && v.messageId == "m1") =
        [⟨"c1", "m1", true⟩] ∧
      d2.votes.length = d1.votes.length ∧
      voteMessage d1 "c1" "m1" VoteType.down "alice" = Except.ok d3 ∧
      d3.votes.filter (fun v => v.chatId == "c1" && v.messageId == "m1") =
        [⟨"c1", "m1", false⟩] ∧
      d3.votes.length = d1.votes.length :=
  voteMessage_idempotent_upsert dbW "c1" "m1" "alice"
    ⟨"c1", "alice", "t1", 10, "private"⟩ (by rfl) (by decide) (by decide)

/-- C5 (amended): `voteMessage` verifies chat ownership before touching the
vote table, and for a chat whose stored owner differs from `userId` it fails
— performing no vote insert or update — but with the chat-not-found error
(ownership masked as absence by `getChatById`); its dedicated `Unauthorized`
error branch is unreachable on every input. -/
theorem voteMessage_nonowner_masked (db : DB) (m : String) (t : VoteType)
    (u : String) (ch : Chat)
    (huniq : ∀ c2, c2 ∈ db.chats → c2.id = ch.id → c2 = ch)
    (hne : ch.userId ≠ u) :
    voteMessage db ch.id m t u = Except.error (QErr.chatNotFound ch.id) ∧
    ∀ db2 c2 m2 t2 u2, voteMessage db2 c2 m2 t2 u2 ≠ Except.error QErr.unauthorized := by
  constructor
  · have hnone : getChatById db ch.id u = none := by
      rw [getChatById, List.find?_eq_none]
      intro x hx hpred
      simp only [Bool.and_eq_true, beq_iff_eq] at hpred
      exact hne ((huniq x hx hpred.1) ▸ hpred.2)
    rw [voteMessage]
    simp only [hnone]
  · intro db2 c2 m2 t2 u2
    cases hg : getChatById db2 c2 u2 with
    | none =>
      rw [voteMessage]
      simp [hg]
    | some ch2 =>
      have hbne : (ch2.userId != u2) = false := by
        simp [getChatById_some_userId hg]
      rw [voteMessage]
      simp only [hg, hbne, Bool.false_eq_true, if_false]
      cases hf : db2.votes.find? (fun v => v.messageId == m2) with
      | none => simp
      | some v0 => simp

theorem voteMessage_nonowner_masked_witness :
    voteMessage dbW "c2" "m9" VoteType.down "alice" =
      Except.error (QErr.chatNotFound "c2") :=
  (voteMessage_nonowner_masked dbW "m9" VoteType.down "alice"
    ⟨"c2", "bob", "t2", 20, "private"⟩ (by decide) (by decide)).1

/-- C5 counterexample: on a chat owned by `alice`, a vote by `bob` fails
with the chat-not-found error, which is not the `Unauthorized` error the
claim names. -/
theorem voteMessage_unauthorized_cex :
    voteMessage dbW "c1" "m1" VoteType.up "bob" =
      Except.error (QErr.chatNotFound "c1") ∧
    (Except.error (QErr.chatNotFound "c1") : Except QErr DB) ≠
      Except.error QErr.unauthorized := by
  constructor
  · rfl
  · intro h
    have h2 := Except.error.inj h
    simp at h2

/-- Embedding of `getMessageById({id, userId})` (queries.ts lines 480-509): select the
message joined with `chat` on `message.chatId = chat.id`, where
`message.id = id AND chat.userId = userId`, limit 1. -/
def getMessageById (db : DB) (id userId : String) : Option DBMessage :=
  db.messages.find? (fun msg => msg.id == id &&
    db.chats.any (fun c => c.id == msg.chatId && c.userId == userId))

/-- Embedding of `deleteMessagesByChatIdAfterTimestamp({chatId, timestamp, userId})`
(queries.ts lines 511-564): verify ownership via `getChatById` (throwing
``Chat not found`` / `Unauthorized` as in `voteMessage`); select the ids of
the chat's messages with `createdAt >= timestamp` (`gte`); if any, delete
the votes with this `chatId` whose `messageId` is among them, then those
messages; otherwise return with no deletion. -/
def msgDeleteIds (db : DB) (chatId : String) (timestamp : Nat) : List String :=
  (db.messages.filter
    (fun msg => msg.chatId == chatId && decide (timestamp ≤ msg.createdAt))).map
    (fun msg => msg.id)

def deleteMessagesByChatIdAfterTimestamp (db : DB) (chatId : String)
    (timestamp : Nat) (userId : String) : Except QErr DB :=
  match getChatById db chatId userId with
  | none => .error (.chatNotFound chatId)
  | some chatToVerify =>
    if chatToVerify.userId != userId then
      .error .unauthorized
    else if (msgDeleteIds db chatId timestamp).length > 0 then
      .ok { db with
        votes := db.votes.filter (fun v =>
          !(v.chatId == chatId && (msgDeleteIds db chatId timestamp).contains v.messageId))
        messages := db.messages.filter (fun msg =>
          !(msg.chatId == chatId && (msgDeleteIds db chatId timestamp).contains msg.id)) }
    else
      .ok db

/-- Embedding of `getDocumentById({id, userId})` (queries.ts lines 355-381): select from
`document` where `document.id = id AND document.userId = userId`, limit 1. -/
def getDocumentById (db : DB) (id userId : String) : Option Document :=
  db.documents.find? (fun d => d.id == id && d.userId == userId)

/-- Embedding of `deleteDocumentsByIdAfterTimestamp({id, timestamp, userId})` (queries.ts
lines 383-421): first delete the suggestions with `documentId = id` and
`documentCreatedAt > timestamp` — with no user-id predicate — then delete
the document revisions with `id`, `userId = userId` and
`createdAt > timestamp`. -/
def deleteDocumentsByIdAfterTimestamp (db : DB) (id : String)
    (timestamp : Nat) (userId : String) : DB :=
  let db1 := { db with suggestions := db.suggestions.filter (fun s =>
    !(s.documentId == id && decide (timestamp < s.documentCreatedAt))) }
  { db1 with documents := db1.documents.filter (fun d =>
    !(d.id == id && d.userId == userId && decide (timestamp < d.createdAt))) }

/-- Embedding of `updateChatVisiblityById({id, visibility, userId})` (queries.ts lines
566-585): update `chat.visibility` on the rows matching
`chat.id = id AND chat.userId = userId`. -/
def updateChatVisiblityById (db : DB) (id visibility userId : String) : DB :=
  { db with chats := db.chats.map (fun c =>
      if c.id == id && c.userId == userId then
        { c with visibility := visibility }
      else c) }

/-- C7: `deleteChatById` removes every vote and message of the chat and the
chat row itself, leaves rows of other chats (and other chat rows) in place,
and afterwards `getMessageById` on any id that belonged only to this chat's
messages returns `none` for every requester. -/
theorem deleteChatById_cascade (db : DB) (c : String) :
    (∀ m, m ∈ db.messages → m.chatId ≠ c → m ∈ (deleteChatById db c).messages) ∧
    (∀ v, v ∈ db.votes → v.chatId ≠ c → v ∈ (deleteChatById db c).votes) ∧
    (∀ ch, ch ∈ db.chats → ch.id ≠ c → ch ∈ (deleteChatById db c).chats) ∧
    (∀ m, m ∈ (deleteChatById db c).messages → m.chatId ≠ c) ∧
    (∀ v, v ∈ (deleteChatById db c).votes → v.chatId ≠ c) ∧
    (∀ ch, ch ∈ (deleteChatById db c).chats → ch.id ≠ c) ∧
    (∀ mid u, (∀ m, m ∈ db.messages → m.id = mid → m.chatId = c) →
      getMessageById (deleteChatById db c) mid u = none) := by
  refine ⟨?_, ?_, ?_, ?_, ?_, ?_, ?_⟩
  · intro m hm hne
    exact List.mem_filter.mpr ⟨hm, by simp [hne]⟩
  · intro v hv hne
    exact List.mem_filter.mpr ⟨hv, by simp [hne]⟩
  · intro ch hch hne
    exact List.mem_filter.mpr ⟨hch, by simp [hne]⟩
  · intro m hm
    have := (List.mem_filter.mp hm).2
    simpa using this
  · intro v hv
    have := (List.mem_filter.mp hv).2
    simpa using this
  · intro ch hch
    have := (List.mem_filter.mp hch).2
    simpa using this
  · intro mid u hall
    rw [getMessageById, List.find?_eq_none]
    intro msg hmsg hpred
    obtain ⟨hmem, hkeep⟩ := List.mem_filter.mp hmsg
    simp only [Bool.and_eq_true, beq_iff_eq] at hpred
    have hchatc := hall msg hmem hpred.1
    simp [hchatc] at hkeep

theorem deleteChatById_cascade_witness :
    getMessageById (deleteChatById dbW "c1") "m1" "alice" = none ∧
    (⟨"c2", "bob", "t2", 20, "private"⟩ : Chat) ∈ (deleteChatById dbW "c1").chats := by
  have h := deleteChatById_cascade dbW "c1"
  exact ⟨h.2.2.2.2.2.2 "m1" "alice" (by decide), h.2.2.1 _ (by decide) (by decide)⟩

theorem mem_msgDeleteIds (db : DB) (c : String) (T : Nat) (x : String) :
    x ∈ msgDeleteIds db c T ↔
      ∃ m, m ∈ db.messages ∧ m.chatId = c ∧ T ≤ m.createdAt ∧ m.id = x := by
  rw [msgDeleteIds]
  constructor
  · intro hx
    obtain ⟨m, hm, hmx⟩ := List.mem_map.mp hx
    obtain ⟨hmm, hmp⟩ := List.mem_filter.mp hm
    simp only [Bool.and_eq_true, beq_iff_eq, decide_eq_true_eq] at hmp
    exact ⟨m, hmm, hmp.1, hmp.2, hmx⟩
  · intro hex
    obtain ⟨m, hmm, hmc, hmT, hmx⟩ := hex
    exact List.mem_map.mpr ⟨m, List.mem_filter.mpr ⟨hmm, by simp [hmc, hmT]⟩, hmx⟩

/-- C6: for a chat the caller owns (message ids unique, as the primary key
enforces), `deleteMessagesByChatIdAfterTimestamp` succeeds and removes
exactly the chat's messages with `createdAt ≥ T`; every vote on one of
those messages is removed, every vote on an earlier message of the chat is
kept, and votes of other chats are kept. -/
theorem deleteMessagesAfterTimestamp_exact (db : DB) (c : String) (T : Nat)
    (u : String) (ch : Chat)
    (hchat : getChatById db c u = some ch)
    (hmu : ∀ m1, m1 ∈ db.messages → ∀ m2, m2 ∈ db.messages → m1.id = m2.id → m1 = m2) :
    ∃ d, deleteMessagesByChatIdAfterTimestamp db c T u = Except.ok d ∧
      d.messages = db.messages.filter
        (fun m => !(m.chatId == c && decide (T ≤ m.createdAt))) ∧
      (∀ v m, v ∈ db.votes → m ∈ db.messages → m.id = v.messageId →
        v.chatId = m.chatId → m.chatId = c → T ≤ m.createdAt → v ∉ d.votes) ∧
      (∀ v m, v ∈ db.votes → m ∈ db.messages → m.id = v.messageId →
        v.chatId = m.chatId → m.chatId = c → m.createdAt < T → v ∈ d.votes) ∧
      (∀ v, v ∈ db.votes → v.chatId ≠ c → v ∈ d.votes) := by
  have hbne : (ch.userId != u) = false := by
    simp [getChatById_some_userId hchat]
  have hnotdel : ∀ m, m ∈ db.messages → m.createdAt < T →
      m.id ∉ msgDeleteIds db c T := by
    intro m hm hlt hcm
    obtain ⟨m2, hm2, hm2c, hm2T, hm2x⟩ := (mem_msgDeleteIds db c T m.id).mp hcm
    have := hmu m2 hm2 m hm hm2x
    rw [this] at hm2T
    omega
  by_cases hpos : (msgDeleteIds db c T).length > 0
  · refine ⟨{ db with
      votes := db.votes.filter (fun v =>
        !(v.chatId == c && (msgDeleteIds db c T).contains v.messageId))
      messages := db.messages.filter (fun msg =>
        !(msg.chatId == c && (msgDeleteIds db c T).contains msg.id)) },
      ?_, ?_, ?_, ?_, ?_⟩
    · rw [deleteMessagesByChatIdAfterTimestamp]
      simp only [hchat, hbne, Bool.false_eq_true, if_false]
      rw [if_pos hpos]
    · apply List.filter_congr
      intro m hm
      cases hcc : (m.chatId == c) with
      | false => simp [hcc]
      | true =>
        by_cases hT : T ≤ m.createdAt
        · have hcont : m.id ∈ msgDeleteIds db c T :=
            (mem_msgDeleteIds db c T m.id).mpr ⟨m, hm, by simpa using hcc, hT, rfl⟩
          simp [hcc, hcont, hT]
        · have hcont := hnotdel m hm (by omega)
          simp [hcc, hcont, hT]
    · intro v m hv hm hid hvc hmc hT hvin
      obtain ⟨_, hkeep⟩ := List.mem_filter.mp hvin
      have hcont : v.messageId ∈ msgDeleteIds db c T :=
        (mem_msgDeleteIds db c T v.messageId).mpr ⟨m, hm, hmc, hT, hid⟩
      rw [hvc, hmc] at hkeep
      simp [hcont] at hkeep
    · intro v m hv hm hid hvc hmc hlt
      apply List.mem_filter.mpr
      refine ⟨hv, ?_⟩
      have hcont := hnotdel m hm hlt
      rw [hid] at hcont
      simp [hcont]
    · intro v hv hne
      exact List.mem_filter.mpr ⟨hv, by simp [hne]⟩
  · have hfe : db.messages.filter
        (fun msg => msg.chatId == c && decide (T ≤ msg.createdAt)) = [] := by
      apply List.eq_nil_of_length_eq_zero
      have : (msgDeleteIds db c T).length = 0 := by omega
      rw [msgDeleteIds, List.length_map] at this
      exact this
    have hnomatch := List.filter_eq_nil_iff.mp hfe
    refine ⟨db, ?_, ?_, ?_, ?_, ?_⟩
    · rw [deleteMessagesByChatIdAfterTimestamp]
      simp only [hchat, hbne, Bool.false_eq_true, if_false]
      rw [if_neg hpos]
    · symm
      apply List.filter_eq_self.mpr
      intro m hm
      have h2 := hnomatch m hm
      simp at h2 ⊢
      tauto
    · intro v m hv hm hid hvc hmc hT _
      exact hnomatch m hm (by simp [hmc, hT])
    · intro v m hv _ _ _ _ _
      exact hv
    · intro v hv _
      exact hv

theorem deleteMessagesAfterTimestamp_exact_witness :
    ∃ d, deleteMessagesByChatIdAfterTimestamp dbW "c1" 6 "alice" = Except.ok d ∧
      d.messages = [⟨"m1", "c1", "user", "p1", "", 5⟩] ∧
      (⟨"c1", "m1", true⟩ : Vote) ∈ d.votes := by
  obtain ⟨d, he, hmsgs, hdel, hkeep, hother⟩ :=
    deleteMessagesAfterTimestamp_exact dbW "c1" 6 "alice"
      ⟨"c1", "alice", "t1", 10, "private"⟩ (by rfl) (by decide)
  refine ⟨d, he, ?_, ?_⟩
  · rw [hmsgs]
    rfl
  · exact hkeep ⟨"c1", "m1", true⟩ ⟨"m1", "c1", "user", "p1", "", 5⟩
      (by decide) (by decide) rfl rfl rfl (by decide)

/-- C2 counterexample: on a state where chat `c1` is stored with owner
`alice`, `getVotesByChatId` — a persistence read the claim's own sources
cite — returns the chat's vote although the function carries no user-id
predicate at all, and `deleteChatById` removes the chat although it, too,
takes no user id. -/
theorem persistence_unscoped_cex :
    getVotesByChatId dbW "c1" = [⟨"c1", "m1", true⟩] ∧
    getChatById dbW "c1" "alice" = some ⟨"c1", "alice", "t1", 10, "private"⟩ ∧
    (deleteChatById dbW "c1").chats = [⟨"c2", "bob", "t2", 20, "private"⟩] :=
  ⟨rfl, rfl, rfl⟩

/-- C2 (amended): the single-row chat and document reads and the visibility
update are scoped by the requesting user's id (a returned row is owned by
the requester; rows of other owners are never modified), but
`getVotesByChatId` and `deleteChatById` read and mutate by chat id alone
with no user-id predicate — their ownership checks, where any, live in the
route handlers. -/
theorem persistence_scoping (db : DB) (i vis u : String) :
    (∀ c, getChatById db i u = some c → c.userId = u) ∧
    (∀ d, getDocumentById db i u = some d → d.userId = u) ∧
    (∀ c, c ∈ db.chats → c.userId ≠ u →
      c ∈ (updateChatVisiblityById db i vis u).chats) ∧
    getVotesByChatId db i = db.votes.filter (fun v => v.chatId == i) ∧
    (deleteChatById db i).chats = db.chats.filter (fun c => !(c.id == i)) := by
  refine ⟨?_, ?_, ?_, rfl, rfl⟩
  · intro c h
    exact getChatById_some_userId h
  · intro d h
    have hpred := List.find?_some h
    simp only [Bool.and_eq_true, beq_iff_eq] at hpred
    exact hpred.2
  · intro c hc hne
    rw [updateChatVisiblityById]
    apply List.mem_map.mpr
    refine ⟨c, hc, ?_⟩
    have hcond : (c.id == i && c.userId == u) = false := by
      simp [hne]
    rw [hcond]
    simp

theorem persistence_scoping_witness :
    (⟨"c2", "bob", "t2", 20, "private"⟩ : Chat) ∈
      (updateChatVisiblityById dbW "c2" "public" "alice").chats :=
  (persistence_scoping dbW "c2" "public" "alice").2.2.1 _ (by decide) (by decide)

/-- Concrete document state for the `deleteDocumentsByIdAfterTimestamp`
evaluation: one document revision owned by `alice` and one suggestion
attached to that revision. -/
def dbDoc : DB :=
  { chats := []
    messages := []
    votes := []
    documents := [⟨"d1", "alice", "doc", "text", "v1", 5⟩]
    suggestions := [⟨"s1", "d1", 5, "orig", "sugg", "desc", false, "alice", 7⟩] }

/-- C8: evaluation of `deleteDocumentsByIdAfterTimestamp` at the failing
input — caller `bob`, document owned by `alice` — shows the dependent
suggestion rows are deleted even though the ownership-checked document
delete matches nothing: the non-owner call is not a no-op. -/
theorem deleteDocuments_nonowner_deletes_suggestions :
    (deleteDocumentsByIdAfterTimestamp dbDoc "d1" 0 "bob").suggestions = [] ∧
    (deleteDocumentsByIdAfterTimestamp dbDoc "d1" 0 "bob").documents =
      dbDoc.documents :=
  ⟨rfl, rfl⟩

/-- Observable persistence and streaming events of the chat `POST` handler
(src/app/(chat)/api/chat/route.ts). -/
inductive Ev where
  | resolveChat
  | saveTitleChat
  | saveInbound
  | mcpConnect
  | streamStart
  | chunk
  | streamComplete
  | saveOutbound
  | mcpClose
deriving DecidableEq, Repr

/-- Events of the `POST` body before `streamText` is invoked (route.ts
lines 101-192): resolve the chat via `getChatById`; when it is absent,
generate a title and `saveChat` it; then `await saveMessages` with the
inbound user message (lines 115-126); inside the `execute` callback,
optionally connect the MCP client.  `chatExists` selects the
resolve-or-create branch, `mcpOk` whether the MCP connection succeeds. -/
def preStreamTrace (chatExists mcpOk : Bool) : List Ev :=
  (if chatExists then [Ev.resolveChat] else [Ev.resolveChat, Ev.saveTitleChat]) ++
    [Ev.saveInbound] ++
    (if mcpOk then [Ev.mcpConnect] else [])

/-- Events of the `onFinish` completion callback (route.ts lines 203-249):
if `auth()` yields a user and a trailing assistant message id is found, the
assistant message is saved; then the MCP client is closed when open. -/
def onFinishTrace (finishAuthOk assistantFound mcpOk : Bool) : List Ev :=
  (if finishAuthOk && assistantFound then [Ev.saveOutbound] else []) ++
    (if mcpOk then [Ev.mcpClose] else [])

/-- Event trace of a chat `POST` request that reaches streaming, in program
order: the pre-stream persistence steps are awaited before `streamText` is
called, the stream then emits `chunks` output chunks, and the SDK invokes
`onFinish` after the stream completes (the completion-callback contract of
`streamText`; spec section 5).  Requests that fail before the inbound save
(auth, sync, missing user message) never reach any of these events. -/
def postTrace (chatExists mcpOk finishAuthOk assistantFound : Bool)
    (chunks : Nat) : List Ev :=
  preStreamTrace chatExists mcpOk ++ [Ev.streamStart] ++
    List.replicate chunks Ev.chunk ++ [Ev.streamComplete] ++
    onFinishTrace finishAuthOk assistantFound mcpOk

/-- C9: on every path through the chat `POST` flow that reaches streaming,
the inbound user-message save occurs strictly before the model stream
starts (every occurrence of one precedes every occurrence of the other),
and the outbound assistant-message save occurs only after the stream
completes — never before it and never among the stream's chunks. -/
theorem postTrace_save_ordering (chatExists mcpOk finishAuthOk assistantFound : Bool)
    (chunks : Nat) :
    (∃ l1 l2, postTrace chatExists mcpOk finishAuthOk assistantFound chunks = l1 ++ l2 ∧
      Ev.saveInbound ∈ l1 ∧ Ev.saveInbound ∉ l2 ∧
      Ev.streamStart ∉ l1 ∧ Ev.streamStart ∈ l2) ∧
    (∃ l3 l4, postTrace chatExists mcpOk finishAuthOk assistantFound chunks = l3 ++ l4 ∧
      Ev.streamComplete ∈ l3 ∧ Ev.saveOutbound ∉ l3 ∧
      (finishAuthOk = true → assistantFound = true → Ev.saveOutbound ∈ l4)) := by
  constructor
  · refine ⟨preStreamTrace chatExists mcpOk,
      [Ev.streamStart] ++ List.replicate chunks Ev.chunk ++ [Ev.streamComplete] ++
        onFinishTrace finishAuthOk assistantFound mcpOk,
      by rw [postTrace]; simp, ?_, ?_, ?_, ?_⟩
    · rw [preStreamTrace]
      cases chatExists <;> cases mcpOk <;> simp
    · rw [onFinishTrace]
      cases finishAuthOk <;> cases assistantFound <;> cases mcpOk <;>
        simp [List.mem_replicate]
    · rw [preStreamTrace]
      cases chatExists <;> cases mcpOk <;> simp
    · simp
  · refine ⟨preStreamTrace chatExists mcpOk ++ [Ev.streamStart] ++
        List.replicate chunks Ev.chunk ++ [Ev.streamComplete],
      onFinishTrace finishAuthOk assistantFound mcpOk,
      by rw [postTrace], ?_, ?_, ?_⟩
    · simp
    · rw [preStreamTrace]
      cases chatExists <;> cases mcpOk <;> simp [List.mem_replicate]
    · intro hf ha
      rw [onFinishTrace, hf, ha]
      simp

theorem postTrace_save_ordering_witness :
    (∃ l1 l2, postTrace true true true true 2 = l1 ++ l2 ∧
      Ev.saveInbound ∈ l1 ∧ Ev.saveInbound ∉ l2 ∧
      Ev.streamStart ∉ l1 ∧ Ev.streamStart ∈ l2) ∧
    (∃ l3 l4, postTrace true true true true 2 = l3 ++ l4 ∧
      Ev.streamComplete ∈ l3 ∧ Ev.saveOutbound ∉ l3 ∧
      (true = true → true = true → Ev.saveOutbound ∈ l4)) :=
  postTrace_save_ordering true true true true 2

end Gideon
